import Mathlib

/-!
Shallow embedding of the biometric music-recommendation core of the
`dsc-project` repository, for checking its natural-language specification.

Embedded components:
  * `src/backend/services/recommender_service.py` — intensity / trend
    computation, the six similarity terms, and the scoring loop of
    `RecommenderService.recommend`;
  * `src/backend/api_backend.py` — the switch (debounce) policy of
    `maybe_emit_recommendation`;
  * `src/backend/redis_consumer.py` — the consumer-group read/ack loop;
  * `src/ingestion/ingestion_service.py` — the archival batch buffer.

Modelling conventions: Python floats are modelled as exact rationals `ℚ`;
`math.sqrt` (used only inside `_euclidean_similarity`) has no exact rational
counterpart, so the square-root function is passed as an explicit parameter
`sqrtFn : ℚ → ℚ`, about which theorems assume only nonnegativity on
nonnegative arguments — the one property of the float `sqrt` the claims use.
Python dicts holding track records become structures; per-user mutable maps
become explicit state values.
-/

namespace DSC

/-- Function `clamp` from `recommender_service.py`:
`max(minimum, min(maximum, value))`. -/
def clamp (value minimum maximum : ℚ) : ℚ :=
  max minimum (min maximum value)

/-- A catalog track as built by `load_tracks`: the fields of the track dict
that the recommendation path reads. -/
structure Track where
  id : String
  name : String
  artists : String
  artist_set : Finset String
  energy : ℚ
  danceability : ℚ
  tempo : ℚ
  valence : ℚ
deriving DecidableEq

/-- Field `feature_vector = [danceability, energy, tempo / 200.0, valence]`,
precomputed by `load_tracks` for every track. -/
def Track.featureVector (t : Track) : List ℚ :=
  [t.danceability, t.energy, t.tempo / 200, t.valence]

/-- The user profile fields read by `recommend`
(`user_profile.get("rest_hr", 60)` / `user_profile.get("max_hr", 190)`,
already resolved to numbers). -/
structure UserProfile where
  rest_hr : ℚ
  max_hr : ℚ
deriving DecidableEq

/-- The dict returned by `RecommenderService.recommend` (lines 173-182):
a projection of the chosen catalog track. -/
structure RecOutput where
  track_id : String
  track_name : String
  artists : String
  energy : ℚ
  danceability : ℚ
  tempo : ℚ
  valence : ℚ
  artist_set : Finset String
deriving DecidableEq

/-- The output dict built from `best_track`. -/
def Track.toOutput (t : Track) : RecOutput :=
  ⟨t.id, t.name, t.artists, t.energy, t.danceability, t.tempo, t.valence,
    t.artist_set⟩

/-- Method `RecommenderService._trend`: `0.0` when the user's history is missing or
has length ≤ 1, else the last sample minus the mean of all prior samples.
A missing history is modelled as the empty list. -/
def trend (history : List ℤ) : ℚ :=
  if history.length ≤ 1 then 0
  else
    let previous := history.dropLast
    let avg_previous : ℚ := (previous.sum : ℚ) / (previous.length : ℚ)
    ((history.getLastD 0 : ℤ) : ℚ) - avg_previous

/-- Heart-rate intensity as computed by `recommend` (lines 121-131):
`hrr = max(max_hr - rest_hr, 1.0)`, clamp of `(hr_last - rest_hr)/hrr` to
`[0,1]`, then a ±0.05 nudge when the trend exceeds `TREND_THRESHOLD = 5`
in either direction, re-clamped. -/
def intensityOf (profile : UserProfile) (history : List ℤ) : ℚ :=
  let current_hr : ℚ := ((history.getLastD 0 : ℤ) : ℚ)
  let t := trend history
  let hrr := max (profile.max_hr - profile.rest_hr) 1
  let intensity := clamp ((current_hr - profile.rest_hr) / hrr) 0 1
  if t > 5 then clamp (intensity + 0.05) 0 1
  else if t < -5 then clamp (intensity - 0.05) 0 1
  else intensity

/-- Squared distance inside `_euclidean_similarity`:
`sum((a - b) ** 2 for a, b in zip(vec_a, vec_b))`. -/
def sqDistance (va vb : List ℚ) : ℚ :=
  ((va.zip vb).map fun p => (p.1 - p.2) ^ 2).sum

/-- Function `_euclidean_similarity(vec_a, vec_b) = 1 / (1 + sqrt(d))`, with
the float `math.sqrt` abstracted as `sqrtFn`. -/
def euclideanSimilarity (sqrtFn : ℚ → ℚ) (va vb : List ℚ) : ℚ :=
  1 / (1 + sqrtFn (sqDistance va vb))

/-- Method `RecommenderService._artist_similarity`: `0.5` when either set is empty,
else Jaccard `|A ∩ B| / |A ∪ B|` (the `union == 0` guard of the source is
kept verbatim). -/
def artistSimilarity (previous current : Finset String) : ℚ :=
  if previous = ∅ ∨ current = ∅ then 0.5
  else
    let intersection := (previous ∩ current).card
    let union := (previous ∪ current).card
    if union = 0 then 0 else (intersection : ℚ) / (union : ℚ)

/-- Term `energy_alignment = 1 - abs(track.energy - intensity)` (line 147). -/
def energyAlignment (energy intensity : ℚ) : ℚ :=
  1 - |energy - intensity|

/-- Term `valence_similarity = 1 - min(1.0, abs(track.valence - target_valence))`
(line 148). -/
def valenceSimilarity (valence target : ℚ) : ℚ :=
  1 - min 1 |valence - target|

/-- Term `dance_similarity = 1 - min(1.0, abs(track.danceability - target_dance))`
(line 149). -/
def danceSimilarity (danceability target : ℚ) : ℚ :=
  1 - min 1 |danceability - target|

/-- Term `preference_similarity` (lines 153-157): the euclidean similarity against
the preference vector when one is supplied and non-empty (Python truthiness
of a list), else the neutral default `0.5`. -/
def preferenceSimilarity (sqrtFn : ℚ → ℚ) (fv : List ℚ)
    (preferenceVector : Option (List ℚ)) : ℚ :=
  match preferenceVector with
  | some pv => if pv.isEmpty then 0.5 else euclideanSimilarity sqrtFn fv pv
  | none => 0.5

/-- The combined score of one candidate track (lines 147-165). -/
def scoreTrack (sqrtFn : ℚ → ℚ) (intensity targetValence targetDance : ℚ)
    (targetVector : List ℚ) (lastArtistSet : Finset String)
    (preferenceVector : Option (List ℚ)) (t : Track) : ℚ :=
  0.35 * energyAlignment t.energy intensity
    + 0.2 * artistSimilarity lastArtistSet t.artist_set
    + 0.15 * preferenceSimilarity sqrtFn t.featureVector preferenceVector
    + 0.1 * valenceSimilarity t.valence targetValence
    + 0.1 * danceSimilarity t.danceability targetDance
    + 0.1 * euclideanSimilarity sqrtFn t.featureVector targetVector

/-- One iteration of the selection loop (lines 144-168): skip blacklisted or
excluded tracks, keep the candidate on a strictly better score. -/
def selectStep (score : Track → ℚ) (blacklist excluded : Finset String)
    (acc : Option Track × ℚ) (t : Track) : Option Track × ℚ :=
  if t.id ∈ blacklist ∨ t.id ∈ excluded then acc
  else if score t > acc.2 then (some t, score t) else acc

/-- The whole selection loop, started from `(best_track, best_score) =
(None, -1.0)`. -/
def selectBest (score : Track → ℚ) (blacklist excluded : Finset String)
    (tracks : List Track) : Option Track :=
  (tracks.foldl (selectStep score blacklist excluded) (none, -1)).1

/-- The score function `recommend` applies to every candidate: the target
values fall back to `0.5` / `0.5` / `120.0` when there is no current track
(lines 133-137), the target vector puts the computed intensity in the energy
slot, and the six terms are combined as in lines 147-165. -/
def recommendScore (sqrtFn : ℚ → ℚ) (profile : UserProfile)
    (history : List ℤ) (latestTrack : Option RecOutput)
    (preferenceVector : Option (List ℚ)) : Track → ℚ :=
  let intensity := intensityOf profile history
  let targetValence := (latestTrack.map RecOutput.valence).getD 0.5
  let targetDance := (latestTrack.map RecOutput.danceability).getD 0.5
  let targetTempo := (latestTrack.map RecOutput.tempo).getD 120
  let targetVector := [targetDance, intensity, targetTempo / 200, targetValence]
  let lastArtistSet := (latestTrack.map RecOutput.artist_set).getD ∅
  scoreTrack sqrtFn intensity targetValence targetDance targetVector
    lastArtistSet preferenceVector

/-- Method `RecommenderService.recommend`. The per-user history lookup is resolved
to the user's history list (missing user = `[]`); `latest_track` is the
previously returned output dict, if any. -/
def recommend (sqrtFn : ℚ → ℚ) (tracks : List Track) (profile : UserProfile)
    (history : List ℤ) (latestTrack : Option RecOutput)
    (blacklist excluded : Finset String)
    (preferenceVector : Option (List ℚ)) : Option RecOutput :=
  if history.isEmpty ∨ tracks.isEmpty then none
  else
    match selectBest
        (recommendScore sqrtFn profile history latestTrack preferenceVector)
        blacklist excluded tracks with
    | none => none
    | some t => some t.toOutput

/-- A track is a candidate when it is neither blacklisted nor excluded
(line 145). -/
def isCandidate (blacklist excluded : Finset String) (t : Track) : Prop :=
  t.id ∉ blacklist ∧ t.id ∉ excluded

instance (blacklist excluded : Finset String) (t : Track) :
    Decidable (isCandidate blacklist excluded t) := by
  unfold isCandidate; infer_instance

/-! ## Switch (debounce) policy — `maybe_emit_recommendation` -/

/-- Constant `MIN_TRACK_DURATION = 30` seconds (`api_backend.py` line 91). -/
def MIN_TRACK_DURATION : ℚ := 30

/-- Per-user switch-policy state: `latest_track[user_id]` and
`last_track_change[user_id]` (absent key = `none`). -/
structure SwitchState where
  latestTrack : Option RecOutput
  lastChange : Option ℚ
deriving DecidableEq

/-- The switch decision and state update of `maybe_emit_recommendation`
(lines 274-291), with the recommender's answer abstracted as `cand` (the
function returns early, without an event, when it is `None`).  Returns the
new state and whether a switch event was emitted.

Source logic: `should_switch = force_switch or current_track is None`; when
that is false and a current track exists, switch when the candidate id
differs and (`force_switch` or no recorded change time or
`now - last_change >= MIN_TRACK_DURATION`); on a switch both maps are
updated to the candidate and `now`.

The switch decision is split out as `shouldSwitchOf`: `should_switch =
force_switch or current_track is None`, refined — when false and a current
track exists — by the id check and the dwell-time / missing-`last_change`
check of lines 281-284. -/
def shouldSwitchOf (st : SwitchState) (track : RecOutput) (force : Bool)
    (now : ℚ) : Bool :=
  match st.latestTrack with
  | none => true
  | some current =>
    if force then true
    else if track.track_id ≠ current.track_id then
      match st.lastChange with
      | none => true
      | some lastChange =>
        if now - lastChange ≥ MIN_TRACK_DURATION then true else false
    else false

/-- The state update and event emission of `maybe_emit_recommendation`
given the switch decision. -/
def maybeEmit (st : SwitchState) (cand : Option RecOutput) (force : Bool)
    (now : ℚ) : SwitchState × Bool :=
  match cand with
  | none => (st, false)
  | some track =>
    if shouldSwitchOf st track force now then (⟨some track, some now⟩, true)
    else (st, false)

/-- One invocation of the switch policy: the recommender candidate offered,
the `force_switch` flag, and the wall-clock time of the call. -/
structure PolicyStep where
  cand : Option RecOutput
  force : Bool
  now : ℚ

/-- Final switch-policy state after a sequence of invocations. -/
def execPolicy (st : SwitchState) (steps : List PolicyStep) : SwitchState :=
  steps.foldl (fun s x => (maybeEmit s x.cand x.force x.now).1) st

/-! ## Stream consumer — `RedisStreamConsumer._loop` -/

/-- The result of one `xreadgroup` call: either a batch of
`(entry id, payload)` pairs or a read error. -/
inductive ReadResult (α : Type) where
  | ok (messages : List (String × α))
  | err (msg : String)

/-- The per-batch handling loop (lines 61-68): for each entry invoke the
handler and acknowledge the entry id afterwards; an exception from the
handler is caught and the entry is left unacknowledged.  Returns the list of
acknowledged entry ids, in order. -/
def handleBatch {α : Type} (handler : α → Except String Unit) :
    List (String × α) → List String
  | [] => []
  | (msgId, data) :: rest =>
    match handler data with
    | Except.ok _ => msgId :: handleBatch handler rest
    | Except.error _ => handleBatch handler rest

/-- The outer read loop (lines 46-59) over a sequence of read results: a
read error is logged, the loop sleeps briefly and continues with the next
read; a successful read has its batch handled.  Returns all acknowledged
entry ids. -/
def consumerRun {α : Type} (handler : α → Except String Unit) :
    List (ReadResult α) → List String
  | [] => []
  | ReadResult.err _ :: rest => consumerRun handler rest
  | ReadResult.ok msgs :: rest =>
    handleBatch handler msgs ++ consumerRun handler rest

/-! ## Archival batch buffer — `ingestion_service.py` -/

/-- The module-level buffer state: `storage_buffer` and
`last_storage_flush`. -/
structure IngestState (α : Type) where
  buffer : List α
  lastFlush : ℚ

/-- Function `_flush_storage_buffer(force)` (lines 74-96), one call.  Parameters
beyond the state: whether the storage client is enabled, `STORAGE_BATCH_SIZE`
and `STORAGE_FLUSH_SECONDS`, the current time, whether the upload succeeds,
and the samples appended to `storage_buffer` while the upload call is in
flight (the buffer is emptied before the upload and the failed batch is
re-queued in front of whatever the buffer then holds).  Returns the new
state and whether an upload was attempted. -/
def flushStorageBuffer {α : Type} (enabled : Bool) (batchSize : ℕ)
    (flushSeconds : ℚ) (force : Bool) (now : ℚ) (uploadOk : Bool)
    (arrivedDuring : List α) (st : IngestState α) : IngestState α × Bool :=
  if ¬enabled ∨ st.buffer.isEmpty then (st, false)
  else if ¬force ∧ st.buffer.length < batchSize ∧ now - st.lastFlush < flushSeconds
  then (st, false)
  else
    let batch := st.buffer
    if uploadOk then (⟨arrivedDuring, now⟩, true)
    else (⟨batch ++ arrivedDuring, st.lastFlush⟩, true)

/-! ## Spec-side definitions (for refinement claims) and concrete fixtures -/

/-- The trend written exactly as the spec states it:
`hr_last - mean(hr_history[:-1])`, `0` if the history length is ≤ 1, with
the prior samples taken as the first `length - 1` entries. -/
def specTrend (history : List ℤ) : ℚ :=
  if history.length ≤ 1 then 0
  else
    ((history.getLastD 0 : ℤ) : ℚ) -
      (((history.take (history.length - 1)).sum : ℚ) /
        ((history.length - 1 : ℕ) : ℚ))

/-- The intensity written exactly as the spec states it:
`intensity0 = clamp((hr_last - rest_hr) / max(max_hr - rest_hr, 1), 0, 1)`,
nudged by `+0.05` when `trend > 5` and `-0.05` when `trend < -5`, then
re-clamped to `[0, 1]`. -/
def specIntensity (rest_hr max_hr : ℚ) (history : List ℤ) : ℚ :=
  let hr_last : ℚ := ((history.getLastD 0 : ℤ) : ℚ)
  let intensity0 := clamp ((hr_last - rest_hr) / max (max_hr - rest_hr) 1) 0 1
  let t := specTrend history
  let nudged :=
    if t > 5 then intensity0 + 0.05
    else if t < -5 then intensity0 - 0.05
    else intensity0
  clamp nudged 0 1

/-- A plain in-range catalog track used in concrete witnesses. -/
def demoTrackA : Track :=
  ⟨"track-a", "A", "artist one", {"artist one"}, 0.5, 0.5, 120, 0.5⟩

/-- A second in-range catalog track, with a different id and energy. -/
def demoTrackB : Track :=
  ⟨"track-b", "B", "artist two", {"artist two"}, 0.9, 0.4, 100, 0.6⟩

/-- A malformed catalog row: `_float` applies no range check, so an `energy`
far outside `[0, 1]` loads as-is. -/
def badTrack : Track :=
  ⟨"track-bad", "Bad", "artist bad", {"artist bad"}, 10, 0.5, 120, 0.5⟩

/-- A second malformed catalog row with a different out-of-range energy. -/
def badTrack2 : Track :=
  ⟨"track-bad2", "Bad2", "artist bad", {"artist bad"}, 12, 0.5, 120, 0.5⟩

/-! ## Helper lemmas -/

theorem clamp_le_sound (v lo hi : ℚ) (hlo : lo ≤ v) (hhi : v ≤ hi) :
    clamp v lo hi = v := by
  unfold clamp
  rw [min_eq_right hhi, max_eq_right hlo]

theorem clamp_mem (v lo hi : ℚ) (h : lo ≤ hi) :
    lo ≤ clamp v lo hi ∧ clamp v lo hi ≤ hi := by
  unfold clamp
  constructor
  · exact le_max_left _ _
  · exact max_le h (min_le_left _ _)

theorem trend_eq_specTrend (history : List ℤ) :
    trend history = specTrend history := by
  unfold trend specTrend
  by_cases h : history.length ≤ 1
  · simp [h]
  · simp only [h, if_false]
    rw [List.dropLast_eq_take, List.length_take]
    have hlen : min (history.length - 1) history.length = history.length - 1 := by
      omega
    rw [hlen]

/-- The intensity the engine computes refines the spec formula. -/
theorem intensityOf_eq_specIntensity (profile : UserProfile)
    (history : List ℤ) :
    intensityOf profile history =
      specIntensity profile.rest_hr profile.max_hr history := by
  unfold intensityOf specIntensity
  rw [trend_eq_specTrend]
  set t := specTrend history
  set i0 := clamp
    ((((history.getLastD 0 : ℤ) : ℚ) - profile.rest_hr) /
      max (profile.max_hr - profile.rest_hr) 1) 0 1 with hi0
  have hmem : (0 : ℚ) ≤ i0 ∧ i0 ≤ 1 := clamp_mem _ 0 1 (by norm_num)
  by_cases h5 : t > 5
  · simp [h5]
  · by_cases hneg : t < -5
    · simp [h5, hneg]
    · simp only [h5, hneg, if_false]
      rw [clamp_le_sound _ _ _ hmem.1 hmem.2]

/-! ## Claim theorems -/

/-- C1: with at least one observed sample, the intensity used for scoring
equals `clamp((hr_last - rest_hr) / max(max_hr - rest_hr, 1), 0, 1)` nudged
by `±0.05` when the trend exceeds `±5` and re-clamped to `[0, 1]`, where the
trend is `0` for histories of length ≤ 1 and otherwise the last sample minus
the mean of all prior samples; a profile with `max_hr ≤ rest_hr` is
tolerated by clamping the denominator to ≥ 1 (the formula is total). -/
theorem C1_intensity_used_for_scoring (sqrtFn : ℚ → ℚ)
    (profile : UserProfile) (history : List ℤ)
    (latestTrack : Option RecOutput) (preferenceVector : Option (List ℚ))
    (t : Track) (_hhist : history ≠ []) :
    recommendScore sqrtFn profile history latestTrack preferenceVector t =
      scoreTrack sqrtFn
        (specIntensity profile.rest_hr profile.max_hr history)
        ((latestTrack.map RecOutput.valence).getD 0.5)
        ((latestTrack.map RecOutput.danceability).getD 0.5)
        [(latestTrack.map RecOutput.danceability).getD 0.5,
          specIntensity profile.rest_hr profile.max_hr history,
          ((latestTrack.map RecOutput.tempo).getD 120) / 200,
          (latestTrack.map RecOutput.valence).getD 0.5]
        ((latestTrack.map RecOutput.artist_set).getD ∅) preferenceVector t ∧
    intensityOf profile history =
      specIntensity profile.rest_hr profile.max_hr history := by
  constructor
  · unfold recommendScore
    rw [intensityOf_eq_specIntensity]
  · exact intensityOf_eq_specIntensity profile history

/-- Witness for C1 at profile `{rest_hr: 60, max_hr: 190}` and history
`[100, 130]` (trend `30 > 5`, so the nudged intensity applies). -/
theorem C1_witness :
    ([100, 130] : List ℤ) ≠ [] ∧
    (recommendScore (fun _ => 0) ⟨60, 190⟩ [100, 130] none none demoTrackA =
        scoreTrack (fun _ => 0) (specIntensity 60 190 [100, 130])
          0.5 0.5 [0.5, specIntensity 60 190 [100, 130], 120 / 200, 0.5]
          ∅ none demoTrackA ∧
      intensityOf ⟨60, 190⟩ [100, 130] = specIntensity 60 190 [100, 130]) :=
  ⟨by decide,
    C1_intensity_used_for_scoring (fun _ => 0) ⟨60, 190⟩ [100, 130] none none
      demoTrackA (by decide)⟩

/-- C6: artist similarity is symmetric, returns the neutral `0.5` whenever
either artist set is empty, and is the Jaccard index
`|A ∩ B| / |A ∪ B|` when both sets are non-empty. -/
theorem C6_artist_similarity_jaccard (A B : Finset String) :
    artistSimilarity A B = artistSimilarity B A ∧
    artistSimilarity ∅ B = 0.5 ∧
    artistSimilarity A ∅ = 0.5 ∧
    (A ≠ ∅ → B ≠ ∅ →
      artistSimilarity A B = ((A ∩ B).card : ℚ) / ((A ∪ B).card : ℚ)) := by
  refine ⟨?_, ?_, ?_, ?_⟩
  · by_cases hA : A = ∅
    · simp [artistSimilarity, hA]
    · by_cases hB : B = ∅
      · simp [artistSimilarity, hB]
      · simp [artistSimilarity, hA, hB, Finset.inter_comm B A,
          Finset.union_comm B A]
  · simp [artistSimilarity]
  · simp [artistSimilarity]
  · intro hA hB
    have hu : (A ∪ B).card ≠ 0 := by
      intro hzero
      rw [Finset.card_eq_zero, Finset.union_eq_empty] at hzero
      exact hA hzero.1
    simp [artistSimilarity, hA, hB, hu]

/-- Witness for C6 at `A = {"x"}`, `B = {"x", "y"}`: symmetric, neutral on
the empty set, and Jaccard value `1/2`. -/
theorem C6_witness :
    artistSimilarity {"x"} {"x", "y"} = artistSimilarity {"x", "y"} {"x"} ∧
    artistSimilarity ∅ {"x"} = 0.5 ∧
    artistSimilarity {"x"} {"x", "y"} = 1 / 2 := by
  refine ⟨(C6_artist_similarity_jaccard {"x"} {"x", "y"}).1,
    (C6_artist_similarity_jaccard {"x"} {"x"}).2.1, ?_⟩
  have h := (C6_artist_similarity_jaccard {"x"} {"x", "y"}).2.2.2
    (by simp) (by simp)
  rw [h]
  rw [show ({"x"} ∩ {"x", "y"} : Finset String) = {"x"} by ext a; simp]
  rw [show ({"x"} ∪ {"x", "y"} : Finset String) = {"x", "y"} by ext a; simp]
  rw [Finset.card_singleton,
    Finset.card_insert_of_not_mem (by simp), Finset.card_singleton]
  norm_num

theorem sqDistance_nonneg (va vb : List ℚ) : 0 ≤ sqDistance va vb := by
  unfold sqDistance
  apply List.sum_nonneg
  intro x hx
  rw [List.mem_map] at hx
  obtain ⟨p, _, hp⟩ := hx
  rw [← hp]
  positivity

theorem euclideanSimilarity_mem (sqrtFn : ℚ → ℚ)
    (hs : ∀ q, 0 ≤ q → 0 ≤ sqrtFn q) (va vb : List ℚ) :
    0 ≤ euclideanSimilarity sqrtFn va vb ∧
      euclideanSimilarity sqrtFn va vb ≤ 1 := by
  unfold euclideanSimilarity
  have h0 : 0 ≤ sqrtFn (sqDistance va vb) := hs _ (sqDistance_nonneg va vb)
  have h1 : (0 : ℚ) < 1 + sqrtFn (sqDistance va vb) := by linarith
  constructor
  · positivity
  · rw [div_le_one h1]
    linarith

theorem artistSimilarity_mem (A B : Finset String) :
    0 ≤ artistSimilarity A B ∧ artistSimilarity A B ≤ 1 := by
  unfold artistSimilarity
  by_cases h : A = ∅ ∨ B = ∅
  · simp [h]; norm_num
  · simp only [h, if_false]
    by_cases hu : (A ∪ B).card = 0
    · simp [hu]
    · simp only [hu, if_false]
      have hcard : (A ∩ B).card ≤ (A ∪ B).card :=
        Finset.card_le_card Finset.inter_subset_union
      have hupos : (0 : ℚ) < ((A ∪ B).card : ℚ) := by
        exact_mod_cast Nat.pos_of_ne_zero hu
      constructor
      · positivity
      · rw [div_le_one hupos]
        exact_mod_cast hcard

/-- C3 counterexample: `energy_alignment = 1 - |energy - intensity|` has no
clamp, so for the arbitrary finite numeric feature `energy = 3` (and
intensity `0`) the term is `-2`, outside `[0, 1]`; the claim that all six
terms lie in `[0, 1]` for arbitrary finite numeric inputs is false. -/
theorem C3_counterexample :
    energyAlignment 3 0 = -2 ∧ ¬(0 ≤ energyAlignment 3 0) := by
  have h : energyAlignment 3 0 = -2 := by
    unfold energyAlignment
    norm_num [abs_of_nonneg]
  exact ⟨h, by rw [h]; norm_num⟩

/-- C3 amended: the five terms other than `energy_alignment` —
`artist_similarity`, `preference_similarity`, `valence_similarity`,
`dance_similarity`, `feature_similarity` — lie in `[0, 1]` for arbitrary
finite numeric inputs (assuming only that the square root of a nonnegative
number is nonnegative); `energy_alignment` is unclamped and lies in `[0, 1]`
exactly when `|energy - intensity| ≤ 1`, in particular whenever both
`energy` and the (always clamped) intensity lie in `[0, 1]`. -/
theorem C3_five_terms_bounded (v tv d td e i : ℚ) (A B : Finset String)
    (va vb : List ℚ) (pv : Option (List ℚ)) (sqrtFn : ℚ → ℚ)
    (hs : ∀ q, 0 ≤ q → 0 ≤ sqrtFn q) :
    (0 ≤ valenceSimilarity v tv ∧ valenceSimilarity v tv ≤ 1) ∧
    (0 ≤ danceSimilarity d td ∧ danceSimilarity d td ≤ 1) ∧
    (0 ≤ artistSimilarity A B ∧ artistSimilarity A B ≤ 1) ∧
    (0 ≤ euclideanSimilarity sqrtFn va vb ∧
      euclideanSimilarity sqrtFn va vb ≤ 1) ∧
    (0 ≤ preferenceSimilarity sqrtFn va pv ∧
      preferenceSimilarity sqrtFn va pv ≤ 1) ∧
    (0 ≤ energyAlignment e i ∧ energyAlignment e i ≤ 1 ↔ |e - i| ≤ 1) := by
  refine ⟨?_, ?_, artistSimilarity_mem A B, euclideanSimilarity_mem _ hs _ _,
    ?_, ?_⟩
  · unfold valenceSimilarity
    have h0 : (0 : ℚ) ≤ |v - tv| := abs_nonneg _
    constructor
    · have := min_le_left (1 : ℚ) |v - tv|
      linarith
    · have : (0 : ℚ) ≤ min 1 |v - tv| := le_min (by norm_num) h0
      linarith
  · unfold danceSimilarity
    have h0 : (0 : ℚ) ≤ |d - td| := abs_nonneg _
    constructor
    · have := min_le_left (1 : ℚ) |d - td|
      linarith
    · have : (0 : ℚ) ≤ min 1 |d - td| := le_min (by norm_num) h0
      linarith
  · unfold preferenceSimilarity
    match pv with
    | none => norm_num
    | some l =>
      by_cases hl : l.isEmpty
      · simp [hl]; norm_num
      · simp only [hl, if_false]
        exact euclideanSimilarity_mem _ hs _ _
  · unfold energyAlignment
    constructor
    · rintro ⟨h0, -⟩
      linarith
    · intro h
      have := abs_nonneg (e - i)
      constructor <;> linarith

/-- Witness for C3 amended, at concrete in-range inputs and the zero
square-root stub. -/
theorem C3_witness :
    (0 ≤ valenceSimilarity 0.3 0.7 ∧ valenceSimilarity 0.3 0.7 ≤ 1) ∧
    (0 ≤ danceSimilarity 0.2 0.9 ∧ danceSimilarity 0.2 0.9 ≤ 1) ∧
    (0 ≤ artistSimilarity {"x"} {"y"} ∧ artistSimilarity {"x"} {"y"} ≤ 1) ∧
    (0 ≤ euclideanSimilarity (fun _ => 0) [0.5, 1] [0, 0.25] ∧
      euclideanSimilarity (fun _ => 0) [0.5, 1] [0, 0.25] ≤ 1) ∧
    (0 ≤ preferenceSimilarity (fun _ => 0) [0.5, 1] none ∧
      preferenceSimilarity (fun _ => 0) [0.5, 1] none ≤ 1) ∧
    (0 ≤ energyAlignment 0.7 0.4 ∧ energyAlignment 0.7 0.4 ≤ 1 ↔
      |0.7 - 0.4| ≤ (1 : ℚ)) :=
  C3_five_terms_bounded 0.3 0.7 0.2 0.9 0.7 0.4 {"x"} {"y"} [0.5, 1]
    [0, 0.25] none (fun _ => 0) (fun _ _ => le_refl 0)

theorem selectStep_skip (score : Track → ℚ) (bl ex : Finset String)
    (acc : Option Track × ℚ) (t : Track) (h : ¬isCandidate bl ex t) :
    selectStep score bl ex acc t = acc := by
  unfold isCandidate at h
  push_neg at h
  have hcond : t.id ∈ bl ∨ t.id ∈ ex := by
    by_cases hbl : t.id ∈ bl
    · exact Or.inl hbl
    · exact Or.inr (h hbl)
  unfold selectStep
  rw [if_pos hcond]

theorem selectStep_keep (score : Track → ℚ) (bl ex : Finset String)
    (acc : Option Track × ℚ) (t : Track) (h : isCandidate bl ex t)
    (hle : score t ≤ acc.2) :
    selectStep score bl ex acc t = acc := by
  unfold selectStep
  rw [if_neg (by unfold isCandidate at h; tauto), if_neg (not_lt.mpr hle)]

theorem selectStep_improve (score : Track → ℚ) (bl ex : Finset String)
    (acc : Option Track × ℚ) (t : Track) (h : isCandidate bl ex t)
    (hgt : acc.2 < score t) :
    selectStep score bl ex acc t = (some t, score t) := by
  unfold selectStep
  rw [if_neg (by unfold isCandidate at h; tauto), if_pos hgt]

/-- Characterization of the selection loop: starting from any accumulator,
either no candidate improves on the accumulated score and the accumulator is
returned unchanged, or the result is the first candidate attaining the
maximum candidate score. -/
theorem selectFoldl_char (score : Track → ℚ) (bl ex : Finset String)
    (cs : List Track) :
    ∀ acc : Option Track × ℚ,
      (List.foldl (selectStep score bl ex) acc cs = acc ∧
        ∀ c ∈ cs, isCandidate bl ex c → score c ≤ acc.2) ∨
      (∃ front t back, cs = front ++ t :: back ∧ isCandidate bl ex t ∧
        acc.2 < score t ∧
        (∀ c ∈ front, isCandidate bl ex c → score c < score t) ∧
        (∀ c ∈ back, isCandidate bl ex c → score c ≤ score t) ∧
        List.foldl (selectStep score bl ex) acc cs = (some t, score t)) := by
  induction cs with
  | nil => exact fun acc => Or.inl ⟨rfl, by simp⟩
  | cons c cs ih =>
    intro acc
    rw [List.foldl_cons]
    by_cases hc : isCandidate bl ex c
    · by_cases hgt : acc.2 < score c
      · rw [selectStep_improve score bl ex acc c hc hgt]
        rcases ih (some c, score c) with ⟨hfold, hall⟩ |
          ⟨front, t, back, hcs, hct, hlt, hfront, hback, hfold⟩
        · refine Or.inr ⟨[], c, cs, by simp, hc, hgt, by simp, ?_, hfold⟩
          intro x hx hcand
          exact hall x hx hcand
        · refine Or.inr ⟨c :: front, t, back, by rw [hcs, List.cons_append], hct, ?_, ?_,
            hback, hfold⟩
          · have hclt : score c < score t := hlt
            linarith
          · intro x hx hcand
            rcases List.mem_cons.mp hx with rfl | hx
            · exact hlt
            · exact hfront x hx hcand
      · push_neg at hgt
        rw [selectStep_keep score bl ex acc c hc hgt]
        rcases ih acc with ⟨hfold, hall⟩ |
          ⟨front, t, back, hcs, hct, hlt, hfront, hback, hfold⟩
        · refine Or.inl ⟨hfold, ?_⟩
          intro x hx hcand
          rcases List.mem_cons.mp hx with rfl | hx
          · exact hgt
          · exact hall x hx hcand
        · refine Or.inr ⟨c :: front, t, back, by rw [hcs, List.cons_append], hct, hlt, ?_,
            hback, hfold⟩
          intro x hx hcand
          rcases List.mem_cons.mp hx with rfl | hx
          · linarith
          · exact hfront x hx hcand
    · rw [selectStep_skip score bl ex acc c hc]
      rcases ih acc with ⟨hfold, hall⟩ |
        ⟨front, t, back, hcs, hct, hlt, hfront, hback, hfold⟩
      · refine Or.inl ⟨hfold, ?_⟩
        intro x hx hcand
        rcases List.mem_cons.mp hx with rfl | hx
        · exact absurd hcand hc
        · exact hall x hx hcand
      · refine Or.inr ⟨c :: front, t, back, by rw [hcs, List.cons_append], hct, hlt, ?_,
          hback, hfold⟩
        intro x hx hcand
        rcases List.mem_cons.mp hx with rfl | hx
        · exact absurd hcand hc
        · exact hfront x hx hcand

theorem selectBest_isCandidate (score : Track → ℚ) (bl ex : Finset String)
    (ts : List Track) (t : Track) (h : selectBest score bl ex ts = some t) :
    isCandidate bl ex t ∧ t ∈ ts := by
  unfold selectBest at h
  rcases selectFoldl_char score bl ex ts (none, -1) with ⟨hfold, -⟩ |
    ⟨front, u, back, hcs, hcu, -, -, -, hfold⟩
  · rw [hfold] at h
    simp at h
  · rw [hfold] at h
    simp only [Option.some.injEq] at h
    subst h
    exact ⟨hcu, by rw [hcs]; exact List.mem_append_right _ (List.mem_cons_self _ _)⟩

theorem recommend_eq_some_iff_selectBest (sqrtFn : ℚ → ℚ)
    (tracks : List Track) (profile : UserProfile) (history : List ℤ)
    (latestTrack : Option RecOutput) (bl ex : Finset String)
    (pv : Option (List ℚ)) (out : RecOutput)
    (h : recommend sqrtFn tracks profile history latestTrack bl ex pv =
      some out) :
    ∃ t, selectBest (recommendScore sqrtFn profile history latestTrack pv)
        bl ex tracks = some t ∧ out = t.toOutput := by
  unfold recommend at h
  by_cases hemp : (history.isEmpty ∨ tracks.isEmpty : Prop)
  · rw [if_pos hemp] at h
    exact absurd h (by simp)
  · rw [if_neg hemp] at h
    rcases hsel : selectBest
        (recommendScore sqrtFn profile history latestTrack pv)
        bl ex tracks with - | t
    · rw [hsel] at h
      simp at h
    · rw [hsel] at h
      simp only [Option.some.injEq] at h
      exact ⟨t, rfl, h.symm⟩

/-- Shared engine for C2/C5: whenever the history is non-empty and some
candidate scores above the `-1.0` sentinel, `recommend` returns the first
candidate attaining the maximum combined score. -/
theorem recommend_picks_first_max (sqrtFn : ℚ → ℚ) (tracks : List Track)
    (profile : UserProfile) (history : List ℤ)
    (latestTrack : Option RecOutput) (bl ex : Finset String)
    (pv : Option (List ℚ)) (hhist : history ≠ [])
    (hcand : ∃ c ∈ tracks, isCandidate bl ex c ∧
      -1 < recommendScore sqrtFn profile history latestTrack pv c) :
    ∃ t front back, tracks = front ++ t :: back ∧ isCandidate bl ex t ∧
      recommend sqrtFn tracks profile history latestTrack bl ex pv =
        some t.toOutput ∧
      (∀ c ∈ tracks, isCandidate bl ex c →
        recommendScore sqrtFn profile history latestTrack pv c ≤
          recommendScore sqrtFn profile history latestTrack pv t) ∧
      (∀ c ∈ front, isCandidate bl ex c →
        recommendScore sqrtFn profile history latestTrack pv c <
          recommendScore sqrtFn profile history latestTrack pv t) := by
  obtain ⟨c0, hc0mem, hc0cand, hc0score⟩ := hcand
  have htr : tracks ≠ [] := by
    rintro rfl
    simp at hc0mem
  rcases selectFoldl_char
      (recommendScore sqrtFn profile history latestTrack pv) bl ex tracks
      (none, -1) with ⟨-, hall⟩ |
    ⟨front, t, back, hcs, hct, hlt, hfront, hback, hfold⟩
  · have := hall c0 hc0mem hc0cand
    norm_num at this
    linarith
  · have hsel : selectBest
        (recommendScore sqrtFn profile history latestTrack pv)
        bl ex tracks = some t := by
      unfold selectBest
      rw [hfold]
    refine ⟨t, front, back, hcs, hct, ?_, ?_, hfront⟩
    · unfold recommend
      rw [if_neg (by simp [List.isEmpty_iff, hhist, htr]), hsel]
    · intro x hx hcand
      rw [hcs] at hx
      rcases List.mem_append.mp hx with hx | hx
      · exact le_of_lt (hfront x hx hcand)
      · rcases List.mem_cons.mp hx with rfl | hx
        · exact le_refl _
        · exact hback x hx hcand

/-- C2 counterexample: the loop's sentinel is `best_score = -1.0` and the
update is strict, so when every candidate's combined score is ≤ -1 (here: a
single candidate whose out-of-range `energy = 12` drives
`0.35 * energy_alignment` below `-3`), `recommend` returns `None` even
though the claimed preconditions — non-empty history, non-empty catalog, a
non-excluded candidate — all hold, so no maximizing track is returned. -/
theorem C2_counterexample :
    recommend (fun _ => 0) [badTrack2] ⟨60, 190⟩ [120] none ∅ ∅ none =
      none ∧
    ([120] : List ℤ) ≠ [] ∧ ([badTrack2] : List Track) ≠ [] ∧
    isCandidate ∅ ∅ badTrack2 := by
  refine ⟨?_, by simp, by simp, by simp [isCandidate]⟩
  norm_num [recommend, selectBest, selectStep, recommendScore, scoreTrack,
    intensityOf, trend, clamp, energyAlignment, valenceSimilarity,
    danceSimilarity, artistSimilarity, preferenceSimilarity,
    euclideanSimilarity, sqDistance, Track.featureVector, badTrack2,
    max_def, min_def, abs_of_nonneg, abs_of_nonpos]

/-- C2 (amended): under the claimed preconditions strengthened by the
requirement that some candidate scores above the loop's `-1.0` sentinel
(automatic when track energies lie in `[0, 1]`), `recommend` returns a
non-blacklisted, non-excluded candidate attaining the maximum combined
score, and among tied candidates the one occurring first in catalog
iteration order — so the result is deterministic for a fixed ordering. -/
theorem C2_first_seen_max_returned (sqrtFn : ℚ → ℚ) (tracks : List Track)
    (profile : UserProfile) (history : List ℤ)
    (latestTrack : Option RecOutput) (bl ex : Finset String)
    (pv : Option (List ℚ)) (hhist : history ≠ [])
    (hcand : ∃ c ∈ tracks, isCandidate bl ex c ∧
      -1 < recommendScore sqrtFn profile history latestTrack pv c) :
    ∃ t front back, tracks = front ++ t :: back ∧ isCandidate bl ex t ∧
      recommend sqrtFn tracks profile history latestTrack bl ex pv =
        some t.toOutput ∧
      (∀ c ∈ tracks, isCandidate bl ex c →
        recommendScore sqrtFn profile history latestTrack pv c ≤
          recommendScore sqrtFn profile history latestTrack pv t) ∧
      (∀ c ∈ front, isCandidate bl ex c →
        recommendScore sqrtFn profile history latestTrack pv c <
          recommendScore sqrtFn profile history latestTrack pv t) :=
  recommend_picks_first_max sqrtFn tracks profile history latestTrack bl ex
    pv hhist hcand

/-- Witness for C2 on a two-track catalog with in-range features. -/
theorem C2_witness :
    ∃ t front back,
      [demoTrackA, demoTrackB] = front ++ t :: back ∧
      isCandidate ∅ ∅ t ∧
      recommend (fun _ => 0) [demoTrackA, demoTrackB] ⟨60, 190⟩ [100] none
        ∅ ∅ none = some t.toOutput ∧
      (∀ c ∈ [demoTrackA, demoTrackB], isCandidate ∅ ∅ c →
        recommendScore (fun _ => 0) ⟨60, 190⟩ [100] none none c ≤
          recommendScore (fun _ => 0) ⟨60, 190⟩ [100] none none t) ∧
      (∀ c ∈ front, isCandidate ∅ ∅ c →
        recommendScore (fun _ => 0) ⟨60, 190⟩ [100] none none c <
          recommendScore (fun _ => 0) ⟨60, 190⟩ [100] none none t) :=
  C2_first_seen_max_returned (fun _ => 0) [demoTrackA, demoTrackB]
    ⟨60, 190⟩ [100] none ∅ ∅ none (by simp)
    ⟨demoTrackA, by simp, by simp [isCandidate],
      by norm_num [recommendScore, scoreTrack, intensityOf, trend, clamp,
        energyAlignment, valenceSimilarity, danceSimilarity,
        artistSimilarity, preferenceSimilarity, euclideanSimilarity,
        sqDistance, Track.featureVector, demoTrackA, max_def, min_def,
        abs_of_nonneg, abs_of_nonpos]⟩

/-- C4: a returned track is never in the user's blacklist, nor in the
explicit exclusion set. -/
theorem C4_blacklisted_never_returned (sqrtFn : ℚ → ℚ)
    (tracks : List Track) (profile : UserProfile) (history : List ℤ)
    (latestTrack : Option RecOutput) (bl ex : Finset String)
    (pv : Option (List ℚ)) (out : RecOutput)
    (h : recommend sqrtFn tracks profile history latestTrack bl ex pv =
      some out) :
    out.track_id ∉ bl ∧ out.track_id ∉ ex := by
  obtain ⟨t, hsel, hout⟩ := recommend_eq_some_iff_selectBest sqrtFn tracks
    profile history latestTrack bl ex pv out h
  obtain ⟨hcand, -⟩ := selectBest_isCandidate _ _ _ _ _ hsel
  subst hout
  exact hcand

/-- Witness for C4: a concrete call that returns a track. -/
theorem C4_witness :
    recommend (fun _ => 0) [demoTrackA] ⟨60, 190⟩ [100] none {"other"} ∅
        none = some demoTrackA.toOutput ∧
    demoTrackA.toOutput.track_id ∉ ({"other"} : Finset String) ∧
    demoTrackA.toOutput.track_id ∉ (∅ : Finset String) := by
  have hrec : recommend (fun _ => 0) [demoTrackA] ⟨60, 190⟩ [100] none
      {"other"} ∅ none = some demoTrackA.toOutput := by
    norm_num [recommend, selectBest, selectStep, recommendScore, scoreTrack,
      intensityOf, trend, clamp, energyAlignment, valenceSimilarity,
      danceSimilarity, artistSimilarity, preferenceSimilarity,
      euclideanSimilarity, sqDistance, Track.featureVector, demoTrackA,
      Track.toOutput, max_def, min_def, abs_of_nonneg, abs_of_nonpos]
    rw [if_neg (by decide)]
  exact ⟨hrec,
    C4_blacklisted_never_returned (fun _ => 0) [demoTrackA] ⟨60, 190⟩ [100]
      none {"other"} ∅ none demoTrackA.toOutput hrec⟩

/-- C5 counterexample: a call in none of the claimed empty-state cases
(non-empty history, non-empty catalog, a non-excluded candidate) that still
returns `None`, because the lone candidate's combined score falls below the
`-1.0` sentinel — reachable only through an out-of-range `energy` such as
`10` loaded verbatim by `_float`. -/
theorem C5_counterexample :
    recommend (fun _ => 0) [badTrack] ⟨60, 190⟩ [100] none ∅ ∅ none =
      none ∧
    ([100] : List ℤ) ≠ [] ∧ ([badTrack] : List Track) ≠ [] ∧
    isCandidate ∅ ∅ badTrack := by
  refine ⟨?_, by simp, by simp, by simp [isCandidate]⟩
  norm_num [recommend, selectBest, selectStep, recommendScore, scoreTrack,
    intensityOf, trend, clamp, energyAlignment, valenceSimilarity,
    danceSimilarity, artistSimilarity, preferenceSimilarity,
    euclideanSimilarity, sqDistance, Track.featureVector, badTrack,
    max_def, min_def, abs_of_nonneg, abs_of_nonpos]

/-- C5 (amended): `recommend` returns `None` exactly when the history is
empty, the catalog is empty, or every non-blacklisted, non-excluded
candidate scores at or below the loop's `-1.0` sentinel — which subsumes
"no candidate remains after filtering" and is reachable with candidates
present only through out-of-range track features; it never raises. -/
theorem C5_none_exactly_when (sqrtFn : ℚ → ℚ) (tracks : List Track)
    (profile : UserProfile) (history : List ℤ)
    (latestTrack : Option RecOutput) (bl ex : Finset String)
    (pv : Option (List ℚ)) :
    recommend sqrtFn tracks profile history latestTrack bl ex pv = none ↔
      (history = [] ∨ tracks = [] ∨
        ∀ c ∈ tracks, isCandidate bl ex c →
          recommendScore sqrtFn profile history latestTrack pv c ≤ -1) := by
  constructor
  · intro h
    by_contra hcon
    push_neg at hcon
    obtain ⟨hh, ht, hc⟩ := hcon
    obtain ⟨c, hcm, hcc, hcs⟩ := hc
    obtain ⟨t, front, back, -, -, hrec, -, -⟩ :=
      recommend_picks_first_max sqrtFn tracks profile history latestTrack
        bl ex pv hh ⟨c, hcm, hcc, hcs⟩
    rw [h] at hrec
    exact Option.noConfusion hrec
  · intro h
    rcases h with h | h | h
    · unfold recommend
      rw [if_pos (Or.inl (by simp [h]))]
    · unfold recommend
      rw [if_pos (Or.inr (by simp [h]))]
    · unfold recommend
      by_cases hemp : (history.isEmpty ∨ tracks.isEmpty : Prop)
      · rw [if_pos hemp]
      · rw [if_neg hemp]
        rcases selectFoldl_char
            (recommendScore sqrtFn profile history latestTrack pv) bl ex
            tracks (none, -1) with ⟨hfold, -⟩ |
          ⟨front, t, back, hcs, hct, hlt, -, -, hfold⟩
        · have hsel : selectBest
              (recommendScore sqrtFn profile history latestTrack pv)
              bl ex tracks = none := by
            unfold selectBest
            rw [hfold]
          rw [hsel]
        · exfalso
          have hle := h t (by rw [hcs]; exact
            List.mem_append_right _ (List.mem_cons_self _ _)) hct
          have hgt : (-1 : ℚ) <
              recommendScore sqrtFn profile history latestTrack pv t := hlt
          linarith

theorem maybeEmit_snd (st : SwitchState) (track : RecOutput) (force : Bool)
    (now : ℚ) :
    (maybeEmit st (some track) force now).2 =
      shouldSwitchOf st track force now := by
  cases h : shouldSwitchOf st track force now <;> simp [maybeEmit, h]

/-- Every policy invocation either leaves the state unchanged without an
event, or emits and records the candidate and the current time. -/
theorem maybeEmit_cases (st : SwitchState) (cand : Option RecOutput)
    (force : Bool) (now : ℚ) :
    maybeEmit st cand force now = (st, false) ∨
    (∃ track, cand = some track ∧
      maybeEmit st cand force now = (⟨some track, some now⟩, true)) := by
  cases cand with
  | none => exact Or.inl rfl
  | some track =>
    cases h : shouldSwitchOf st track force now with
    | false => exact Or.inl (by simp [maybeEmit, h])
    | true => exact Or.inr ⟨track, rfl, by simp [maybeEmit, h]⟩

/-- An unforced emission from a state with a current track and a recorded
last change can only happen after the dwell time has elapsed. -/
theorem maybeEmit_unforced_gate (st : SwitchState) (cand : Option RecOutput)
    (now u : ℚ) (cur : RecOutput)
    (hcur : st.latestTrack = some cur) (hlast : st.lastChange = some u)
    (hemit : (maybeEmit st cand false now).2 = true) :
    MIN_TRACK_DURATION ≤ now - u := by
  cases cand with
  | none => simp [maybeEmit] at hemit
  | some track =>
    rw [maybeEmit_snd] at hemit
    unfold shouldSwitchOf at hemit
    rw [hcur, hlast] at hemit
    by_cases hid : track.track_id = cur.track_id
    · simp [hid] at hemit
    · by_cases hd : MIN_TRACK_DURATION ≤ now - u
      · exact hd
      · simp [hid, hd, ge_iff_le] at hemit

/-- Once the policy state records a current track and a last-change time no
earlier than `cval`, running any sequence of invocations whose times are all
at least `cval` preserves that shape. -/
theorem execPolicy_state_mono (steps : List PolicyStep) :
    ∀ (st : SwitchState) (cval : ℚ),
      (∃ tr, st.latestTrack = some tr) →
      (∃ u, st.lastChange = some u ∧ cval ≤ u) →
      (∀ z ∈ steps, cval ≤ z.now) →
      (∃ tr, (execPolicy st steps).latestTrack = some tr) ∧
      (∃ u, (execPolicy st steps).lastChange = some u ∧ cval ≤ u) := by
  induction steps with
  | nil => exact fun st cval h1 h2 _ => ⟨h1, h2⟩
  | cons z rest ih =>
    intro st cval h1 h2 hmono
    have hstep : execPolicy st (z :: rest) =
        execPolicy (maybeEmit st z.cand z.force z.now).1 rest := by
      unfold execPolicy
      rw [List.foldl_cons]
    rw [hstep]
    rcases maybeEmit_cases st z.cand z.force z.now with hcase |
      ⟨track, -, hcase⟩
    · rw [hcase]
      exact ih st cval h1 h2 fun w hw => hmono w (List.mem_cons_of_mem _ hw)
    · rw [hcase]
      exact ih ⟨some track, some z.now⟩ cval ⟨track, rfl⟩
        ⟨z.now, rfl, hmono z (List.mem_cons_self _ _)⟩
        fun w hw => hmono w (List.mem_cons_of_mem _ hw)

/-- C7: along any sequence of policy invocations, once a switch event is
emitted at time `x.now`, a later unforced invocation (separated by
intermediate invocations whose clock never runs behind `x.now`) can emit a
second switch event only when at least `MIN_TRACK_DURATION` seconds have
elapsed; a forced (dislike-driven) switch is exempt from this gate. -/
theorem C7_no_unforced_switch_within_window (st0 : SwitchState)
    (front : List PolicyStep) (x : PolicyStep) (mid : List PolicyStep)
    (y : PolicyStep)
    (hx : (maybeEmit (execPolicy st0 front) x.cand x.force x.now).2 = true)
    (hmono : ∀ z ∈ mid, x.now ≤ z.now)
    (hyforce : y.force = false)
    (hy : (maybeEmit (execPolicy st0 (front ++ x :: mid)) y.cand y.force
      y.now).2 = true) :
    MIN_TRACK_DURATION ≤ y.now - x.now := by
  rcases maybeEmit_cases (execPolicy st0 front) x.cand x.force x.now with
    hcase | ⟨track, -, hcase⟩
  · rw [hcase] at hx
    simp at hx
  · have hafter : execPolicy st0 (front ++ x :: mid) =
        execPolicy ⟨some track, some x.now⟩ mid := by
      have h1 : execPolicy st0 (front ++ x :: mid) =
          execPolicy (maybeEmit (execPolicy st0 front)
            x.cand x.force x.now).1 mid := by
        unfold execPolicy
        rw [List.foldl_append, List.foldl_cons]
      rw [h1, hcase]
    obtain ⟨⟨tr3, htr3⟩, u, hu, hxu⟩ :=
      execPolicy_state_mono mid ⟨some track, some x.now⟩ x.now
        ⟨track, rfl⟩ ⟨x.now, rfl, le_refl _⟩ hmono
    rw [hafter, hyforce] at hy
    have hgate := maybeEmit_unforced_gate
      (execPolicy ⟨some track, some x.now⟩ mid) y.cand y.now u tr3 htr3 hu hy
    linarith

/-- Witness for C7: from the empty state, a first switch at time `0` and an
unforced second switch at time `100` — the theorem yields the elapsed-time
bound `MIN_TRACK_DURATION ≤ 100 - 0`. -/
theorem C7_witness :
    (maybeEmit (execPolicy ⟨none, none⟩ [])
        (some demoTrackA.toOutput) false 0).2 = true ∧
    (maybeEmit (execPolicy ⟨none, none⟩
        ([] ++ ⟨some demoTrackA.toOutput, false, 0⟩ :: []))
        (some demoTrackB.toOutput) false 100).2 = true ∧
    MIN_TRACK_DURATION ≤ (100 : ℚ) - 0 := by
  have h1 : (maybeEmit (execPolicy ⟨none, none⟩ [])
      (some demoTrackA.toOutput) false 0).2 = true := rfl
  have h2 : (maybeEmit (execPolicy ⟨none, none⟩
      ([] ++ ⟨some demoTrackA.toOutput, false, 0⟩ :: []))
      (some demoTrackB.toOutput) false 100).2 = true := by
    have hst : execPolicy ⟨none, none⟩
        ([] ++ ⟨some demoTrackA.toOutput, false, 0⟩ :: []) =
        ⟨some demoTrackA.toOutput, some 0⟩ := rfl
    rw [hst, maybeEmit_snd]
    unfold shouldSwitchOf
    dsimp only
    rw [if_neg (by decide), if_pos (by decide),
      if_pos (by norm_num [MIN_TRACK_DURATION])]
  exact ⟨h1, h2,
    C7_no_unforced_switch_within_window ⟨none, none⟩ []
      ⟨some demoTrackA.toOutput, false, 0⟩ []
      ⟨some demoTrackB.toOutput, false, 100⟩ h1 (by simp) rfl h2⟩

/-- C8 counterexample: with a current track playing since time `0`, a forced
call at time `1` offering the *same* track emits a switch event, although
the claimed transition rule requires `candidate.id ≠ current.id` in all
cases; the code's `should_switch = force_switch or current is None` skips
the id check when forced. -/
theorem C8_counterexample :
    ¬ (((maybeEmit ⟨some demoTrackA.toOutput, some 0⟩
          (some demoTrackA.toOutput) true 1).2 = true) ↔
        (demoTrackA.toOutput.track_id ≠ demoTrackA.toOutput.track_id ∧
          (true = true ∨ MIN_TRACK_DURATION ≤ (1 : ℚ) - 0))) := by
  intro h
  have hl : (maybeEmit ⟨some demoTrackA.toOutput, some 0⟩
      (some demoTrackA.toOutput) true 1).2 = true := rfl
  obtain ⟨hne, -⟩ := h.mp hl
  exact hne rfl

/-- C8 (amended): with a current track `current` playing since `since`, the
policy emits and moves to `Playing(candidate, now)` iff `force_switch` is
set OR (`candidate.id ≠ current.id` AND `now - since ≥ MIN_TRACK_DURATION`);
the id check is applied only to unforced switches.  Without an emission the
state is unchanged. -/
theorem C8_playing_transition (st : SwitchState) (current : RecOutput)
    (since : ℚ) (cand : RecOutput) (force : Bool) (now : ℚ)
    (hcur : st.latestTrack = some current)
    (hsince : st.lastChange = some since) :
    ((maybeEmit st (some cand) force now).2 = true ↔
      (force = true ∨ (cand.track_id ≠ current.track_id ∧
        MIN_TRACK_DURATION ≤ now - since))) ∧
    ((maybeEmit st (some cand) force now).2 = true →
      (maybeEmit st (some cand) force now).1 = ⟨some cand, some now⟩) ∧
    ((maybeEmit st (some cand) force now).2 = false →
      (maybeEmit st (some cand) force now).1 = st) := by
  have hiff : shouldSwitchOf st cand force now = true ↔
      (force = true ∨ (cand.track_id ≠ current.track_id ∧
        MIN_TRACK_DURATION ≤ now - since)) := by
    unfold shouldSwitchOf
    rw [hcur, hsince]
    cases force with
    | true => simp
    | false =>
      by_cases hid : cand.track_id = current.track_id
      · simp [hid]
      · by_cases hd : MIN_TRACK_DURATION ≤ now - since
        · simp [hid, hd, ge_iff_le]
        · simp [hid, hd, ge_iff_le]
  refine ⟨by rw [maybeEmit_snd]; exact hiff, ?_, ?_⟩
  · intro h
    rw [maybeEmit_snd] at h
    simp [maybeEmit, h]
  · intro h
    rw [maybeEmit_snd] at h
    simp [maybeEmit, h]

/-- Witness for C8: current track playing since `0`, a different candidate
offered unforced at `50` — the emission condition evaluates via the
theorem. -/
theorem C8_witness :
    ((maybeEmit ⟨some demoTrackA.toOutput, some 0⟩
        (some demoTrackB.toOutput) false 50).2 = true ↔
      (false = true ∨ (demoTrackB.toOutput.track_id ≠
          demoTrackA.toOutput.track_id ∧
        MIN_TRACK_DURATION ≤ (50 : ℚ) - 0))) ∧
    ((maybeEmit ⟨some demoTrackA.toOutput, some 0⟩
        (some demoTrackB.toOutput) false 50).2 = true →
      (maybeEmit ⟨some demoTrackA.toOutput, some 0⟩
        (some demoTrackB.toOutput) false 50).1 =
          ⟨some demoTrackB.toOutput, some 50⟩) ∧
    ((maybeEmit ⟨some demoTrackA.toOutput, some 0⟩
        (some demoTrackB.toOutput) false 50).2 = false →
      (maybeEmit ⟨some demoTrackA.toOutput, some 0⟩
        (some demoTrackB.toOutput) false 50).1 =
          ⟨some demoTrackA.toOutput, some 0⟩) :=
  C8_playing_transition ⟨some demoTrackA.toOutput, some 0⟩
    demoTrackA.toOutput 0 demoTrackB.toOutput false 50 rfl rfl

theorem mem_handleBatch {α : Type} (handler : α → Except String Unit)
    (msgs : List (String × α)) (msgId : String) :
    msgId ∈ handleBatch handler msgs ↔
      ∃ d, (msgId, d) ∈ msgs ∧ handler d = Except.ok () := by
  induction msgs with
  | nil => simp [handleBatch]
  | cons p rest ih =>
    obtain ⟨i, d⟩ := p
    cases h : handler d with
    | ok u =>
      cases u
      constructor
      · intro hm
        rw [handleBatch, h] at hm
        rcases List.mem_cons.mp hm with rfl | hm
        · exact ⟨d, List.mem_cons_self _ _, h⟩
        · obtain ⟨d2, hd2, hok⟩ := ih.mp hm
          exact ⟨d2, List.mem_cons_of_mem _ hd2, hok⟩
      · rintro ⟨d2, hd2, hok⟩
        rw [handleBatch, h]
        rcases List.mem_cons.mp hd2 with heq | hd2
        · rw [Prod.mk.injEq] at heq
          rw [heq.1]
          exact List.mem_cons_self _ _
        · exact List.mem_cons_of_mem _ (ih.mpr ⟨d2, hd2, hok⟩)
    | error e2 =>
      constructor
      · intro hm
        rw [handleBatch, h] at hm
        obtain ⟨d2, hd2, hok⟩ := ih.mp hm
        exact ⟨d2, List.mem_cons_of_mem _ hd2, hok⟩
      · rintro ⟨d2, hd2, hok⟩
        rw [handleBatch, h]
        rcases List.mem_cons.mp hd2 with heq | hd2
        · rw [Prod.mk.injEq] at heq
          rw [heq.2] at hok
          rw [hok] at h
          exact Except.noConfusion h
        · exact ih.mpr ⟨d2, hd2, hok⟩

theorem mem_consumerRun {α : Type} (handler : α → Except String Unit)
    (reads : List (ReadResult α)) (msgId : String) :
    msgId ∈ consumerRun handler reads ↔
      ∃ batch, ReadResult.ok batch ∈ reads ∧
        ∃ d, (msgId, d) ∈ batch ∧ handler d = Except.ok () := by
  induction reads with
  | nil => simp [consumerRun]
  | cons r rest ih =>
    cases r with
    | err e =>
      rw [consumerRun, ih]
      constructor
      · rintro ⟨batch, hb, hrest⟩
        exact ⟨batch, List.mem_cons_of_mem _ hb, hrest⟩
      · rintro ⟨batch, hb, hrest⟩
        rcases List.mem_cons.mp hb with heq | hb2
        · exact absurd heq (by simp)
        · exact ⟨batch, hb2, hrest⟩
    | ok msgs =>
      rw [consumerRun, List.mem_append, mem_handleBatch, ih]
      constructor
      · rintro (⟨d, hd, hok⟩ | ⟨batch, hb, hrest⟩)
        · exact ⟨msgs, List.mem_cons_self _ _, d, hd, hok⟩
        · exact ⟨batch, List.mem_cons_of_mem _ hb, hrest⟩
      · rintro ⟨batch, hb, d, hd, hok⟩
        rcases List.mem_cons.mp hb with heq | hb
        · rw [ReadResult.ok.injEq] at heq
          exact Or.inl ⟨d, heq ▸ hd, hok⟩
        · exact Or.inr ⟨batch, hb, d, hd, hok⟩

/-- C9: over any sequence of reads, a stream entry id is acknowledged iff
it appeared in a successfully read batch and the handler returned without
error on its payload (an exception leaves the entry unacknowledged and, by
consumer-group semantics, pending for redelivery); and a read error never
terminates the loop — it continues with the remaining reads after the
backoff. -/
theorem C9_ack_iff_handler_succeeds {α : Type}
    (handler : α → Except String Unit) (reads : List (ReadResult α))
    (msgId : String) (e : String) :
    (msgId ∈ consumerRun handler reads ↔
      ∃ batch, ReadResult.ok batch ∈ reads ∧
        ∃ d, (msgId, d) ∈ batch ∧ handler d = Except.ok ()) ∧
    consumerRun handler (ReadResult.err e :: reads) =
      consumerRun handler reads :=
  ⟨mem_consumerRun handler reads msgId, rfl⟩

/-- C10: the archival buffer flushes (attempts an upload) exactly when the
client is enabled, the buffer is non-empty, and the batch-size or
flush-interval trigger fires or the flush is forced; a failed upload
re-queues the entire batch at the front of the buffer, ahead of samples
buffered during the upload, preserving order and dropping nothing; a
successful upload empties the taken batch and records the flush time; a
skipped flush leaves the state unchanged. -/
theorem C10_flush_trigger_and_requeue {α : Type} (enabled : Bool)
    (batchSize : ℕ) (flushSeconds : ℚ) (force : Bool) (now : ℚ)
    (uploadOk : Bool) (arrivedDuring : List α) (st : IngestState α) :
    ((flushStorageBuffer enabled batchSize flushSeconds force now uploadOk
        arrivedDuring st).2 = true ↔
      (enabled = true ∧ st.buffer ≠ [] ∧
        (force = true ∨ batchSize ≤ st.buffer.length ∨
          flushSeconds ≤ now - st.lastFlush))) ∧
    ((flushStorageBuffer enabled batchSize flushSeconds force now uploadOk
        arrivedDuring st).2 = false →
      (flushStorageBuffer enabled batchSize flushSeconds force now uploadOk
        arrivedDuring st).1 = st) ∧
    ((flushStorageBuffer enabled batchSize flushSeconds force now uploadOk
        arrivedDuring st).2 = true → uploadOk = false →
      (flushStorageBuffer enabled batchSize flushSeconds force now uploadOk
          arrivedDuring st).1.buffer = st.buffer ++ arrivedDuring ∧
      (flushStorageBuffer enabled batchSize flushSeconds force now uploadOk
          arrivedDuring st).1.lastFlush = st.lastFlush) ∧
    ((flushStorageBuffer enabled batchSize flushSeconds force now uploadOk
        arrivedDuring st).2 = true → uploadOk = true →
      (flushStorageBuffer enabled batchSize flushSeconds force now uploadOk
        arrivedDuring st).1 = ⟨arrivedDuring, now⟩) := by
  unfold flushStorageBuffer
  by_cases h1 : (¬enabled = true ∨ st.buffer.isEmpty = true : Prop)
  · rw [if_pos h1]
    refine ⟨?_, fun _ => rfl, ?_, ?_⟩
    · simp only [Bool.false_eq_true, false_iff]
      rintro ⟨he, hb, -⟩
      rcases h1 with h1 | h1
      · exact h1 he
      · exact hb (List.isEmpty_iff.mp h1)
    · intro habs
      exact absurd habs (by simp)
    · intro habs
      exact absurd habs (by simp)
  · rw [if_neg h1]
    push_neg at h1
    obtain ⟨he, hbne⟩ := h1
    have hbuf : st.buffer ≠ [] := fun h => hbne (by simp [h])
    by_cases h2 : (¬force = true ∧ st.buffer.length < batchSize ∧
        now - st.lastFlush < flushSeconds : Prop)
    · rw [if_pos h2]
      refine ⟨?_, fun _ => rfl, ?_, ?_⟩
      · simp only [Bool.false_eq_true, false_iff]
        rintro ⟨-, -, hdisj⟩
        obtain ⟨hnf, hlen, htime⟩ := h2
        rcases hdisj with hd | hd | hd
        · exact hnf hd
        · exact absurd hd (by omega)
        · linarith
      · intro habs
        exact absurd habs (by simp)
      · intro habs
        exact absurd habs (by simp)
    · rw [if_neg h2]
      push_neg at h2
      have hdisj : force = true ∨ batchSize ≤ st.buffer.length ∨
          flushSeconds ≤ now - st.lastFlush := by
        by_cases hf : force = true
        · exact Or.inl hf
        · by_cases hlen : st.buffer.length < batchSize
          · exact Or.inr (Or.inr (h2 hf hlen))
          · exact Or.inr (Or.inl (not_lt.mp hlen))
      cases uploadOk with
      | true =>
        refine ⟨⟨fun _ => ⟨he, hbuf, hdisj⟩, fun _ => by simp⟩, ?_, ?_, ?_⟩
        · intro habs
          simp at habs
        · intro h hfalse
          exact Bool.noConfusion hfalse
        · intro h htrue
          simp
      | false =>
        refine ⟨⟨fun _ => ⟨he, hbuf, hdisj⟩, fun _ => by simp⟩, ?_, ?_, ?_⟩
        · intro habs
          simp at habs
        · intro h hfalse
          constructor <;> simp
        · intro h htrue
          exact Bool.noConfusion htrue

/-- Witness for C10: enabled, three buffered samples, batch size 25 not
reached but the 10-second interval elapsed (`now = 20`, last flush `5`),
upload fails, one sample arrives during the upload — the flush is attempted
and the failed batch is re-queued in front. -/
theorem C10_witness :
    ((flushStorageBuffer true 25 10 false 20 false [7] ⟨[1, 2, 3], 5⟩).2 =
        true ↔
      (true = true ∧ ([1, 2, 3] : List ℕ) ≠ [] ∧
        (false = true ∨ 25 ≤ ([1, 2, 3] : List ℕ).length ∨
          (10 : ℚ) ≤ 20 - 5))) ∧
    ((flushStorageBuffer true 25 10 false 20 false [7]
        (⟨[1, 2, 3], 5⟩ : IngestState ℕ)).2 = true) ∧
    (flushStorageBuffer true 25 10 false 20 false [7]
        (⟨[1, 2, 3], 5⟩ : IngestState ℕ)).1.buffer = [1, 2, 3] ++ [7] ∧
    (flushStorageBuffer true 25 10 false 20 false [7]
        (⟨[1, 2, 3], 5⟩ : IngestState ℕ)).1.lastFlush = 5 := by
  have hthm := C10_flush_trigger_and_requeue true 25 10 false 20 false
    ([7] : List ℕ) ⟨[1, 2, 3], 5⟩
  have hfl : (flushStorageBuffer true 25 10 false 20 false [7]
      (⟨[1, 2, 3], 5⟩ : IngestState ℕ)).2 = true :=
    hthm.1.mpr ⟨rfl, by simp, Or.inr (Or.inr (by norm_num))⟩
  have hreq := hthm.2.2.1 hfl rfl
  exact ⟨hthm.1, hfl, hreq.1, hreq.2⟩

end DSC
